import Mathlib

/-!
Verification of the dispensing-machine firmware (src/main.cpp).

The firmware is a single Arduino sketch.  We give a shallow embedding of its
control core:

* the median-of-3 filter pass and the thresholded dispense loop of `control`
  (`long` values are modelled as `Int`; readings are supplied as a stream
  `Nat → Int` standing for successive `scale.read()` results);
* the manual-mode release wait of `control`;
* the EEPROM byte codec `EEPROMWrite` / `EEPROMRead` (the EEPROM is a byte
  store `Nat → Nat`; 32-bit wraparound of the C expressions is explicit);
* the mode-cycling code of `loop` and its dispense trigger condition;
* the calibration workflow `calibrateFunction` together with the value
  re-load performed by `setup`;
* the shift-register debouncer `DebounceSwitch` (the `static uint16_t State`
  is threaded explicitly; `digitalRead` raw levels are `Nat`, `0` = LOW =
  button pressed on the pull-up inputs).

Blocking loops of the firmware are embedded fuel-indexed: `none` means the
loop is still running after the given number of iterations.
-/

/-! ### Global tables (src/main.cpp lines 51-53) -/

/-- `long val[] = {220000, 240000, 250000, -1};` -/
def val : List Int := [220000, 240000, 250000, -1]

/-- `int address[] = {0, 4, 8};` -/
def address : List Nat := [0, 4, 8]

/-- `int VOLUME[] = {200, 450, 900};` -/
def VOLUME : List Int := [200, 450, 900]

/-! ### The median-of-3 pass of `control` (lines 143-164) -/

/-- One comparison/swap of the bubble sort inner loop (lines 150-154):
`if (medianArray[t] > medianArray[t+1]) swap`. -/
def swapIfGt (p : Int × Int) : Int × Int :=
  if p.1 > p.2 then (p.2, p.1) else p

/-- The bubble sort of `control` specialised to `n = 3` (lines 148-156):
outer pass `s = 0` compares positions (0,1) then (1,2); outer pass `s = 1`
compares positions (0,1). -/
def bubbleSort3 (m0 m1 m2 : Int) : Int × Int × Int :=
  let p01 := swapIfGt (m0, m1)
  let p12 := swapIfGt (p01.2, m2)
  let q01 := swapIfGt (p01.1, p12.1)
  (q01.1, q01.2, p12.2)

/-- `(n + 1) / 2` with `n = 3` (line 164): the index of the element taken as
the "median". -/
def medianIndex : Nat := (3 + 1) / 2

/-- `medianValue = medianArray[(n + 1) / 2];` (line 164), applied to the
sorted array. -/
def medianOf3 (m0 m1 m2 : Int) : Int :=
  let s := bubbleSort3 m0 m1 m2
  [s.1, s.2.1, s.2.2].getD medianIndex 0

/-! ### The dispense controller `control` (lines 136-184) -/

/-- The representative value of the `k`-th median pass when `control` draws
its readings from the stream `scaleRead`: each pass logs
`medianArray[m] = -1 * scale.read();` three times (line 145). -/
def passMedian (scaleRead : Nat → Int) (k : Nat) : Int :=
  medianOf3 (-1 * scaleRead (3 * k)) (-1 * scaleRead (3 * k + 1)) (-1 * scaleRead (3 * k + 2))

/-- The thresholded do-while loop of `control` (lines 142-169), fuel-indexed.
Returns `some m` when the loop exits after `m` passes, `none` when the fuel
runs out with the loop still going.  The loop repeats while
`localVal - medianValue > 0`. -/
def controlLoop (localVal : Int) (scaleRead : Nat → Int) : Nat → Nat → Option Nat
  | 0, _ => none
  | fuel + 1, k =>
    if localVal - passMedian scaleRead k > 0 then controlLoop localVal scaleRead fuel (k + 1)
    else some (k + 1)

/-- The manual-mode wait `while (digitalRead(DISPENSE) == 0) {};` (line 178),
fuel-indexed over the stream of raw DISPENSE levels.  Returns `some t` when
the button reads HIGH (released) at poll `t`. -/
def manualWait (dispenseRaw : Nat → Nat) : Nat → Nat → Option Nat
  | 0, _ => none
  | fuel + 1, t => if dispenseRaw t = 0 then manualWait dispenseRaw fuel (t + 1) else some t

/-- `void control(long localVal)` (lines 136-184): the threshold branch runs
the median-pass loop, the sentinel branch (`localVal == -1`) busy-waits on
the raw DISPENSE level and never touches the scale.  (The name `control` is
already taken in Lean, hence the prime.) -/
def control' (localVal : Int) (scaleRead : Nat → Int) (dispenseRaw : Nat → Nat)
    (fuel : Nat) : Option Nat :=
  if localVal ≠ -1 then controlLoop localVal scaleRead fuel 0
  else manualWait dispenseRaw fuel 0

/-! ### C1: the "median" pass picks the largest of the three readings -/

/-- C1: in every thresholded median pass the three sorted readings are in
ascending order and the representative sample is the element at 0-based
index `(3+1)/2 = 2`, which is the largest of the three readings; on the
sample triple `(0, 1, 2)` it differs from the true median at index 1. -/
theorem median_pass_selects_largest (m0 m1 m2 : Int) :
    medianIndex = 2 ∧
    (bubbleSort3 m0 m1 m2).1 ≤ (bubbleSort3 m0 m1 m2).2.1 ∧
    (bubbleSort3 m0 m1 m2).2.1 ≤ (bubbleSort3 m0 m1 m2).2.2 ∧
    medianOf3 m0 m1 m2 = (bubbleSort3 m0 m1 m2).2.2 ∧
    medianOf3 m0 m1 m2 = max (max m0 m1) m2 ∧
    medianOf3 0 1 2 ≠ (bubbleSort3 0 1 2).2.1 := by
  refine ⟨rfl, ?_, ?_, rfl, ?_, by decide⟩ <;>
    simp only [bubbleSort3, swapIfGt, medianOf3, medianIndex] <;>
    split_ifs <;> simp_all <;> omega

/-! ### C2: the thresholded loop stops exactly when the representative reaches the threshold -/

/-- Characterisation of the do-while loop of `control`: starting at pass `k`,
it answers `some m` precisely when pass `m - 1` is the first pass (from `k`)
whose representative sample reaches the threshold, within the available fuel. -/
lemma controlLoop_eq_some_iff (t : Int) (s : Nat → Int) :
    ∀ fuel k m, controlLoop t s fuel k = some m ↔
      (k < m ∧ m ≤ k + fuel ∧ t ≤ passMedian s (m - 1) ∧
        ∀ j, k ≤ j → j < m - 1 → passMedian s j < t) := by
  intro fuel
  induction fuel with
  | zero =>
    intro k m
    simp only [controlLoop]
    constructor
    · intro h; exact absurd h (by simp)
    · rintro ⟨h1, h2, -, -⟩; omega
  | succ fuel ih =>
    intro k m
    simp only [controlLoop]
    by_cases hc : t - passMedian s k > 0
    · rw [if_pos hc, ih (k + 1) m]
      constructor
      · rintro ⟨h1, h2, h3, h4⟩
        refine ⟨by omega, by omega, h3, ?_⟩
        intro j hj1 hj2
        rcases Nat.eq_or_lt_of_le hj1 with rfl | hlt
        · omega
        · exact h4 j (by omega) hj2
      · rintro ⟨h1, h2, h3, h4⟩
        have hm : k + 1 ≠ m := by
          rintro rfl
          have hk : k + 1 - 1 = k := rfl
          rw [hk] at h3
          omega
        exact ⟨by omega, by omega, h3, fun j hj1 hj2 => h4 j (by omega) hj2⟩
    · rw [if_neg hc]
      have hts : t ≤ passMedian s k := by omega
      constructor
      · rintro h
        have hm : m = k + 1 := by
          have := Option.some.inj h
          omega
        subst hm
        exact ⟨by omega, by omega, hts, fun j hj1 hj2 => absurd hj2 (by omega)⟩
      · rintro ⟨h1, h2, h3, h4⟩
        have hm : m = k + 1 := by
          by_contra hne
          have := h4 k (Nat.le_refl k) (by omega)
          omega
        subst hm; rfl

/-- C2: for a threshold `t ≠ -1`, `control` keeps running median passes
exactly while `t - representative > 0` and stops with the first pass whose
representative reaches `t` (both directions of the loop characterisation);
moreover on the triple of sign-corrected readings `[221000, 219000, 218500]`
the sorted array is `[218500, 219000, 221000]` and the representative
compared against `220000` is `221000`. -/
theorem control_thresholded_stop (t : Int) (scaleRead : Nat → Int)
    (dispenseRaw : Nat → Nat) (fuel m : Nat) (ht : t ≠ -1) :
    (control' t scaleRead dispenseRaw fuel = some m →
        1 ≤ m ∧ m ≤ fuel ∧ t ≤ passMedian scaleRead (m - 1) ∧
        ∀ j < m - 1, passMedian scaleRead j < t) ∧
    (1 ≤ m → m ≤ fuel → t ≤ passMedian scaleRead (m - 1) →
        (∀ j < m - 1, passMedian scaleRead j < t) →
        control' t scaleRead dispenseRaw fuel = some m) ∧
    bubbleSort3 221000 219000 218500 = (218500, 219000, 221000) ∧
    passMedian (fun j => if j = 0 then (-221000 : Int) else if j = 1 then -219000 else -218500) 0
      = 221000 := by
  have hunfold : control' t scaleRead dispenseRaw fuel = controlLoop t scaleRead fuel 0 := by
    simp only [control', if_pos ht]
  refine ⟨?_, ?_, by decide, by decide⟩
  · intro h
    rw [hunfold, controlLoop_eq_some_iff] at h
    obtain ⟨h1, h2, h3, h4⟩ := h
    exact ⟨by omega, by omega, h3, fun j hj => h4 j (by omega) hj⟩
  · intro h1 h2 h3 h4
    rw [hunfold, controlLoop_eq_some_iff]
    exact ⟨by omega, by omega, h3, fun j _ hj => h4 j hj⟩

/-- Witness for C2: with threshold `220000` and a scale stream whose first
three raw readings sign-correct to `221000, 219000, 218500`, the loop stops
after the very first pass. -/
theorem control_thresholded_stop_witness :
    control' 220000 (fun j => if j = 0 then (-221000 : Int) else if j = 1 then -219000 else -218500)
      (fun _ => 0) 1 = some 1 := by
  refine (control_thresholded_stop 220000 _ (fun _ => 0) 1 1 (by decide)).2.1
    (by omega) (by omega) (by decide) (fun j hj => absurd hj (by omega))

/-! ### C4: the sentinel branch never consults the scale and stops only on release -/

/-- With the fuel running, a permanently held DISPENSE button keeps
`manualWait` spinning forever. -/
lemma manualWait_none_of_held (d : Nat → Nat) (hheld : ∀ k, d k = 0) :
    ∀ fuel t, manualWait d fuel t = none := by
  intro fuel
  induction fuel with
  | zero => intro t; rfl
  | succ fuel ih =>
    intro t
    simp only [manualWait, hheld t, if_pos rfl]
    exact ih (t + 1)

/-- When `manualWait` answers, the button reads released there and was held
at every earlier poll. -/
lemma manualWait_eq_some (d : Nat → Nat) :
    ∀ fuel t t', manualWait d fuel t = some t' →
      d t' ≠ 0 ∧ ∀ j, t ≤ j → j < t' → d j = 0 := by
  intro fuel
  induction fuel with
  | zero => intro t t' h; exact absurd h (by simp [manualWait])
  | succ fuel ih =>
    intro t t' h
    simp only [manualWait] at h
    by_cases hd : d t = 0
    · rw [if_pos hd] at h
      obtain ⟨ha, hb⟩ := ih (t + 1) t' h
      refine ⟨ha, fun j hj1 hj2 => ?_⟩
      rcases Nat.eq_or_lt_of_le hj1 with rfl | hlt
      · exact hd
      · exact hb j (by omega) hj2
    · rw [if_neg hd] at h
      obtain rfl := Option.some.inj h
      exact ⟨hd, fun j hj1 hj2 => absurd hj2 (by omega)⟩

/-- C4: with the sentinel threshold `-1`, `control` is insensitive to the
scale stream (it never reads the weight sensor to decide when to stop); if
the button is continuously held it never stops; and whenever it does stop,
the stopping poll reads released and every earlier poll read held. -/
theorem manual_dispense_ignores_scale (scale1 scale2 : Nat → Int)
    (dispenseRaw : Nat → Nat) (fuel : Nat) :
    control' (-1) scale1 dispenseRaw fuel = control' (-1) scale2 dispenseRaw fuel ∧
    ((∀ k, dispenseRaw k = 0) → control' (-1) scale1 dispenseRaw fuel = none) ∧
    (∀ t', control' (-1) scale1 dispenseRaw fuel = some t' →
      dispenseRaw t' ≠ 0 ∧ ∀ j < t', dispenseRaw j = 0) := by
  have hunfold : ∀ s, control' (-1) s dispenseRaw fuel = manualWait dispenseRaw fuel 0 := by
    intro s; simp [control']
  rw [hunfold, hunfold]
  refine ⟨rfl, fun hheld => manualWait_none_of_held dispenseRaw hheld fuel 0, ?_⟩
  intro t' h
  obtain ⟨ha, hb⟩ := manualWait_eq_some dispenseRaw fuel 0 t' h
  exact ⟨ha, fun j hj => hb j (Nat.zero_le j) hj⟩

/-- Witness for C4: a button that is never released keeps the sentinel
branch running for any amount of fuel (here 5 polls), and a button released
at poll 2 stops the wait there, with the two earlier polls held. -/
theorem manual_dispense_ignores_scale_witness :
    control' (-1) (fun _ => 0) (fun _ => 0) 5 = none ∧
    ((fun t => if t < 2 then 0 else 1) 2 ≠ 0 ∧
      ∀ j < 2, (fun t => if t < 2 then 0 else 1) j = 0) :=
  ⟨(manual_dispense_ignores_scale (fun _ => 0) (fun _ => 7) (fun _ => 0) 5).2.1 (fun _ => rfl),
   (manual_dispense_ignores_scale (fun _ => 0) (fun _ => 7)
      (fun t => if t < 2 then 0 else 1) 5).2.2 2 (by decide)⟩

/-! ### The EEPROM codec (lines 275-301) -/

/-- `void EEPROMWrite(int address, long value)` (lines 275-285): the value is
split into 4 bytes, least significant first, stored at `address + 0 .. 3`.
On the two's-complement `long`, `value & 0xFF` is `value % 256` (Euclidean
remainder) and the arithmetic shift `value >> k` is the flooring `value / 2^k`,
which is what `Int./` computes for a positive divisor. -/
def EEPROMWrite (a : Nat) (value : Int) (store : Nat → Nat) : Nat → Nat := fun x =>
  if x = a then (value % 256).toNat
  else if x = a + 1 then ((value / 256) % 256).toNat
  else if x = a + 2 then ((value / 65536) % 256).toNat
  else if x = a + 3 then ((value / 16777216) % 256).toNat
  else store x

/-- Reinterpretation of an unsigned 32-bit value as a signed `long`: the
`return` of `EEPROMRead` assigns the 32-bit unsigned sum back to a `long`. -/
def toSigned32 (n : Nat) : Int :=
  if n < 2147483648 then (n : Int) else (n : Int) - 4294967296

/-- `long EEPROMRead(long address)` (lines 294-301):
`((four << 0) & 0xFF) + ((three << 8) & 0xFFFF) + ((two << 16) & 0xFFFFFF) +
((one << 24) & 0xFFFFFFFF)`.  The last term and the sum are computed in
32-bit arithmetic (`one << 24` overflows into the unsigned domain and the
additions wrap), hence the explicit `% 2^32`, and the result is
reinterpreted as signed. -/
def EEPROMRead (a : Nat) (store : Nat → Nat) : Int :=
  toSigned32 ((((store a <<< 0) &&& 0xFF) + ((store (a + 1) <<< 8) &&& 0xFFFF) +
    ((store (a + 2) <<< 16) &&& 0xFFFFFF) + ((store (a + 3) <<< 24) &&& 0xFFFFFFFF)) %
    4294967296)

/-- A value below the width of an all-ones mask is untouched by it. -/
lemma and_mask_of_lt {x n : Nat} (mask : Nat) (hmask : mask = 2 ^ n - 1) (h : x < 2 ^ n) :
    x &&& mask = x := by
  rw [hmask]
  exact Nat.and_pow_two_sub_one_of_lt_two_pow h

/-- Round-trip of the EEPROM codec on the signed 32-bit range (shared by the
calibration-persistence argument). -/
lemma EEPROMRead_EEPROMWrite (v : Int) (a : Nat) (store : Nat → Nat)
    (h1 : -2147483648 ≤ v) (h2 : v < 2147483648) :
    EEPROMRead a (EEPROMWrite a v store) = v := by
  have e0 : EEPROMWrite a v store a = (v % 256).toNat := by
    simp [EEPROMWrite]
  have e1 : EEPROMWrite a v store (a + 1) = ((v / 256) % 256).toNat := by
    simp only [EEPROMWrite]
    rw [if_neg (by omega)]
    simp
  have e2 : EEPROMWrite a v store (a + 2) = ((v / 65536) % 256).toNat := by
    simp only [EEPROMWrite]
    rw [if_neg (by omega), if_neg (by omega)]
    simp
  have e3 : EEPROMWrite a v store (a + 3) = ((v / 16777216) % 256).toNat := by
    simp only [EEPROMWrite]
    rw [if_neg (by omega), if_neg (by omega), if_neg (by omega)]
    simp
  have b0lt : (v % 256).toNat < 256 := by omega
  have b1lt : ((v / 256) % 256).toNat < 256 := by omega
  have b2lt : ((v / 65536) % 256).toNat < 256 := by omega
  have b3lt : ((v / 16777216) % 256).toNat < 256 := by omega
  rw [EEPROMRead, e0, e1, e2, e3]
  rw [Nat.shiftLeft_zero, Nat.shiftLeft_eq, Nat.shiftLeft_eq, Nat.shiftLeft_eq]
  norm_num only
  rw [and_mask_of_lt 255 (n := 8) (by norm_num) b0lt,
    and_mask_of_lt 65535 (n := 16) (by norm_num) (by omega),
    and_mask_of_lt 16777215 (n := 24) (by norm_num) (by omega),
    and_mask_of_lt 4294967295 (n := 32) (by norm_num) (by omega)]
  rw [toSigned32]
  split_ifs with h <;> omega

/-- C3: writing any signed 32-bit value (negative values and `-1` included)
at a slot address and reading the same address back returns the value, and
the byte at `address + 0` is the least significant byte of the value
(little-endian layout). -/
theorem eeprom_write_read_roundtrip (v : Int) (a : Nat) (store : Nat → Nat)
    (h1 : -2147483648 ≤ v) (h2 : v < 2147483648) :
    EEPROMRead a (EEPROMWrite a v store) = v ∧
    EEPROMWrite a v store a = (v % 256).toNat ∧
    EEPROMWrite a v store (a + 3) = ((v / 16777216) % 256).toNat := by
  refine ⟨EEPROMRead_EEPROMWrite v a store h1 h2, by simp [EEPROMWrite], ?_⟩
  simp only [EEPROMWrite]
  rw [if_neg (by omega), if_neg (by omega), if_neg (by omega)]
  simp

/-- Witness for C3: the sentinel `-1` written at slot address 0 over a zero
store reads back as `-1`, with `0xFF` stored at byte 0. -/
theorem eeprom_write_read_roundtrip_witness :
    EEPROMRead 0 (EEPROMWrite 0 (-1) (fun _ => 0)) = -1 ∧
    EEPROMWrite 0 (-1) (fun _ => 0) 0 = 255 ∧
    EEPROMWrite 0 (-1) (fun _ => 0) 3 = 255 := by
  have h := eeprom_write_read_roundtrip (-1) 0 (fun _ => 0) (by decide) (by decide)
  exact ⟨h.1, h.2.1, h.2.2⟩

/-! ### The main loop (lines 97-127) -/

/-- The mode-cycling update of `loop` (lines 120-123): `index++` on the
`byte` counter (wrapping modulo 256) followed by `if (index > 3) index = 0;`. -/
def advanceIndex (index : Nat) : Nat :=
  if (index + 1) % 256 > 3 then 0 else (index + 1) % 256

/-- One iteration of `loop` (lines 97-127).  The dispense branch guard is
`digitalRead(DISPENSE) == 0 && reading < val[index]` (line 108) with
`reading = scale.read() * -1` (line 100); when it holds, the branch shows
`VOLUME[index]`, switches the relay on and calls `control(val[index])`
(line 117), modelled by running `control'` on the given future streams.
Returns the dispense branch's outcome (`none` when the branch was not
entered) and the mode index after the iteration (the index update, lines
119-126, runs after the branch when the debounced mode switch fired). -/
def loopIter (index : Nat) (valTable : Nat → Int) (switchState : Nat)
    (dispenseRaw : Nat) (scaleRaw : Int) (scaleRead : Nat → Int)
    (dispenseStream : Nat → Nat) (fuel : Nat) : Option (Option Nat) × Nat :=
  if dispenseRaw = 0 ∧ scaleRaw * -1 < valTable index then
    (some (control' (valTable index) scaleRead dispenseStream fuel),
      if switchState = 1 then advanceIndex index else index)
  else
    (none, if switchState = 1 then advanceIndex index else index)

/-- C6: in a main-loop iteration the dispense controller is invoked exactly
when the DISPENSE raw level reads pressed (0) and the sign-corrected reading
is strictly below the active mode's threshold; when invoked it runs
`control` on exactly the active mode's threshold, and it is never invoked
while the reading is at or above that threshold. -/
theorem dispense_trigger_iff (index : Nat) (valTable : Nat → Int)
    (switchState dispenseRaw : Nat) (scaleRaw : Int) (scaleRead : Nat → Int)
    (dispenseStream : Nat → Nat) (fuel : Nat) :
    ((loopIter index valTable switchState dispenseRaw scaleRaw scaleRead dispenseStream
        fuel).1.isSome = true ↔ (dispenseRaw = 0 ∧ scaleRaw * -1 < valTable index)) ∧
    (dispenseRaw = 0 → scaleRaw * -1 < valTable index →
      (loopIter index valTable switchState dispenseRaw scaleRaw scaleRead dispenseStream
        fuel).1 = some (control' (valTable index) scaleRead dispenseStream fuel)) ∧
    (valTable index ≤ scaleRaw * -1 →
      (loopIter index valTable switchState dispenseRaw scaleRaw scaleRead dispenseStream
        fuel).1 = none) := by
  unfold loopIter
  by_cases hg : dispenseRaw = 0 ∧ scaleRaw * -1 < valTable index
  · rw [if_pos hg]
    exact ⟨iff_of_true rfl hg, fun _ _ => rfl, fun hle => absurd hg.2 (by omega)⟩
  · rw [if_neg hg]
    exact ⟨iff_of_false (by simp) hg, fun h1 h2 => absurd ⟨h1, h2⟩ hg, fun _ => rfl⟩

/-- Witness for C6: with threshold `-5` at the active mode and a reading of
`0`, holding the button does not start dispensing. -/
theorem dispense_trigger_iff_witness :
    (loopIter 0 (fun _ => -5) 0 0 0 (fun _ => 0) (fun _ => 1) 3).1 = none :=
  (dispense_trigger_iff 0 (fun _ => -5) 0 0 0 (fun _ => 0) (fun _ => 1) 3).2.2 (by decide)

/-- C9: starting from mode index 0, each debounced mode-button press
advances the index by one through exactly 0, 1, 2, 3 and wraps from 3 back
to 0; after any number of presses the index stays below 4. -/
theorem mode_cycling_mod4 (n : Nat) :
    advanceIndex^[n] 0 = n % 4 ∧ advanceIndex^[n] 0 < 4 ∧
    advanceIndex 0 = 1 ∧ advanceIndex 1 = 2 ∧ advanceIndex 2 = 3 ∧ advanceIndex 3 = 0 := by
  have key : ∀ m, advanceIndex^[m] 0 = m % 4 := by
    intro m
    induction m with
    | zero => rfl
    | succ m ih =>
      rw [Function.iterate_succ_apply', ih]
      simp only [advanceIndex]
      split_ifs <;> omega
  exact ⟨key n, by rw [key n]; omega, by decide, by decide, by decide, by decide⟩

/-- C10: the dispense branch is reachable in Manual mode: after three
debounced presses the index is 3; the loaded table has `val[3] = -1`; with
the button held and a raw scale reading of 100 (sign-corrected to -100,
below -1) the branch is entered, yet 3 is not a valid index into the
3-element `VOLUME` array, so `VOLUME[3]` is read out of bounds. -/
theorem volume_read_out_of_bounds_manual :
    advanceIndex^[3] 0 = 3 ∧
    val.getD 3 0 = -1 ∧
    (loopIter 3 (fun i => val.getD i 0) 0 0 100 (fun _ => 100) (fun _ => 0) 2).1.isSome
      = true ∧
    VOLUME.length = 3 ∧ ¬(3 < VOLUME.length) := by decide

/-! ### The calibration workflow (lines 218-265) and the reload in `setup` (lines 85-88) -/

/-- The nested capture loops of `calibrateFunction` (lines 241-253),
flattened over the stream of MODE raw levels sampled once per condition
check (`t` counts the samples).  While the MODE button reads pressed (0),
each inner iteration overwrites `localValue` with the stabilised reading
`scale.get_units(5) * -1` (line 245) and sets `flag = 1`; when the button
reads released, the outer loop exits as soon as `flag` is nonzero and
otherwise polls again.  Fuel-indexed: `Sum.inl` is the running state
`(t, localValue, flag)` at fuel exhaustion, `Sum.inr` the captured value on
exit. -/
def calibCapture (modeRaw : Nat → Nat) (stable : Nat → Int) :
    Nat → Nat → Int → Nat → (Nat × Int × Nat) ⊕ Int
  | 0, t, lv, flag => Sum.inl (t, lv, flag)
  | fuel + 1, t, lv, flag =>
    if modeRaw t = 0 then calibCapture modeRaw stable fuel (t + 1) (stable t) 1
    else if flag ≠ 0 then Sum.inr lv
    else calibCapture modeRaw stable fuel (t + 1) lv flag

/-- `void calibrateFunction(int localIndex)` (lines 218-265): `localValue`
starts at `val[localIndex]` (line 219), the capture loops run, and only on
completion is the captured value written to the EEPROM at
`address[localIndex]` (line 263).  `Sum.inl` carries the new store and the
captured value; `Sum.inr` reports the still-running state at fuel
exhaustion (no write has happened). -/
def calibrateFunction (localIndex : Nat) (valTable : Nat → Int) (store : Nat → Nat)
    (modeRaw : Nat → Nat) (stable : Nat → Int) (fuel : Nat) :
    ((Nat → Nat) × Int) ⊕ (Nat × Int × Nat) :=
  match calibCapture modeRaw stable fuel 0 (valTable localIndex) 0 with
  | Sum.inr lv => Sum.inl (EEPROMWrite (address.getD localIndex 0) lv store, lv)
  | Sum.inl s => Sum.inr s

/-- The EEPROM store as it stands after `calibrateFunction` (equal to the
initial store whenever the workflow has not completed). -/
def calibrateStoreAfter (localIndex : Nat) (valTable : Nat → Int) (store : Nat → Nat)
    (modeRaw : Nat → Nat) (stable : Nat → Int) (fuel : Nat) : Nat → Nat :=
  match calibrateFunction localIndex valTable store modeRaw stable fuel with
  | Sum.inl (store2, _) => store2
  | Sum.inr _ => store

/-- The threshold reload of `setup` (lines 85-88): `val[i] =
EEPROMRead(address[i]);` for `i < 3`, `val[3]` untouched; it runs after the
calibration workflow returns and before the main loop starts. -/
def setupVal (store : Nat → Nat) (oldVal : Nat → Int) : Nat → Int := fun i =>
  if i < 3 then EEPROMRead (address.getD i 0) store else oldVal i

/-- C7: when the calibration workflow for preset `localIndex` completes (the
capture button was pressed and later released), the captured value is
persisted at that preset's fixed address — the post-workflow store is
exactly the write of the captured value there, and reading the address back
returns it — and the in-memory table entry loaded by `setup` before normal
operation equals the captured value. -/
theorem calibration_persists_and_loads (localIndex : Nat) (valTable : Nat → Int)
    (store : Nat → Nat) (modeRaw : Nat → Nat) (stable : Nat → Int) (fuel : Nat)
    (store2 : Nat → Nat) (lv : Int)
    (hdone : calibrateFunction localIndex valTable store modeRaw stable fuel =
      Sum.inl (store2, lv))
    (hidx : localIndex < 3)
    (hlo : -2147483648 ≤ lv) (hhi : lv < 2147483648) :
    store2 = EEPROMWrite (address.getD localIndex 0) lv store ∧
    EEPROMRead (address.getD localIndex 0) store2 = lv ∧
    setupVal store2 valTable localIndex = lv := by
  have hstore : store2 = EEPROMWrite (address.getD localIndex 0) lv store := by
    unfold calibrateFunction at hdone
    cases hcap : calibCapture modeRaw stable fuel 0 (valTable localIndex) 0 with
    | inl s => rw [hcap] at hdone; exact absurd hdone (by simp)
    | inr lv2 =>
      rw [hcap] at hdone
      simp only [Sum.inl.injEq, Prod.mk.injEq] at hdone
      rw [← hdone.1, hdone.2]
  have hread : EEPROMRead (address.getD localIndex 0) store2 = lv := by
    rw [hstore]
    exact EEPROMRead_EEPROMWrite lv (address.getD localIndex 0) store hlo hhi
  refine ⟨hstore, hread, ?_⟩
  simp only [setupVal]
  rw [if_pos hidx]
  exact hread

/-- Witness for C7: a press at poll 0 and a release at poll 1 capture the
stabilised reading 123456 for preset 0; it lands at address 0 of the store
and `setup` loads it back into the table before the loop runs. -/
theorem calibration_persists_and_loads_witness :
    EEPROMRead 0 (EEPROMWrite 0 123456 (fun _ => 0)) = 123456 ∧
    setupVal (EEPROMWrite 0 123456 (fun _ => 0)) (fun i => val.getD i 0) 0 = 123456 := by
  have h := calibration_persists_and_loads 0 (fun i => val.getD i 0) (fun _ => 0)
    (fun t => if t = 0 then 0 else 1) (fun _ => 123456) 3
    (EEPROMWrite 0 123456 (fun _ => 0)) 123456 rfl (by omega) (by decide) (by decide)
  exact ⟨h.2.1, h.2.2⟩

/-- C8: a capture phase in which the MODE button is never pressed keeps
spinning with the flag unset and the candidate value exactly the
pre-existing table value, the workflow never completes, and the EEPROM
store is left untouched (no write to any address happens). -/
theorem calibration_unpressed_keeps_value (localIndex : Nat) (valTable : Nat → Int)
    (store : Nat → Nat) (modeRaw : Nat → Nat) (stable : Nat → Int) (fuel : Nat)
    (hnever : ∀ t, modeRaw t ≠ 0) :
    calibCapture modeRaw stable fuel 0 (valTable localIndex) 0 =
      Sum.inl (fuel, valTable localIndex, 0) ∧
    calibrateFunction localIndex valTable store modeRaw stable fuel =
      Sum.inr (fuel, valTable localIndex, 0) ∧
    calibrateStoreAfter localIndex valTable store modeRaw stable fuel = store := by
  have key : ∀ f t lv, calibCapture modeRaw stable f t lv 0 = Sum.inl (t + f, lv, 0) := by
    intro f
    induction f with
    | zero => intro t lv; rfl
    | succ f ih =>
      intro t lv
      simp only [calibCapture]
      rw [if_neg (hnever t), if_neg (by simp), ih (t + 1) lv]
      have ht : t + 1 + f = t + (f + 1) := by omega
      rw [ht]
  have h := key fuel 0 (valTable localIndex)
  rw [Nat.zero_add] at h
  refine ⟨h, ?_, ?_⟩
  · unfold calibrateFunction
    rw [h]
  · unfold calibrateStoreAfter calibrateFunction
    rw [h]

/-- Witness for C8: with the MODE button never pressed (always reading 1)
the workflow is still running after 4 polls with the candidate value still
the stored 220000, and the store is unchanged. -/
theorem calibration_unpressed_keeps_value_witness :
    calibrateFunction 0 (fun i => val.getD i 0) (fun _ => 0) (fun _ => 1) (fun _ => 777) 4 =
      Sum.inr (4, 220000, 0) ∧
    calibrateStoreAfter 0 (fun i => val.getD i 0) (fun _ => 0) (fun _ => 1) (fun _ => 777) 4 =
      (fun _ => 0) := by
  have h := calibration_unpressed_keeps_value 0 (fun i => val.getD i 0) (fun _ => 0)
    (fun _ => 1) (fun _ => 777) 4 (fun _ => one_ne_zero)
  exact ⟨h.2.1, h.2.2⟩

/-! ### The debouncer `DebounceSwitch` (lines 411-416) -/

/-- `byte DebounceSwitch()` (lines 411-416) with the `static uint16_t State`
threaded explicitly.  `State = (State << 1) | !digitalRead(MODE) | 0xe000;`
— the raw level is inverted, so a pressed button (LOW, reading 0) shifts a 1
into the register — truncated to 16 bits by the assignment; the poll reports
1 exactly when the new state equals `0xf000`.  Returns (new state, report). -/
def DebounceSwitch (State : Nat) (modeRaw : Nat) : Nat × Nat :=
  let State2 := ((State <<< 1) ||| (if modeRaw = 0 then 1 else 0) ||| 0xe000) % 65536
  (State2, if State2 = 0xf000 then 1 else 0)

/-- A run of debouncer polls over a list of raw MODE levels, threading the
state and accumulating how many polls reported 1. -/
def debounceRun (raws : List Nat) (acc : Nat × Nat) : Nat × Nat :=
  raws.foldl (fun p raw => ((DebounceSwitch p.1 raw).1, p.2 + (DebounceSwitch p.1 raw).2)) acc

lemma debounceRun_cons (raw : Nat) (l : List Nat) (s cnt : Nat) :
    debounceRun (raw :: l) (s, cnt) =
      debounceRun l ((DebounceSwitch s raw).1, cnt + (DebounceSwitch s raw).2) := rfl

lemma debounceRun_append (l1 l2 : List Nat) (acc : Nat × Nat) :
    debounceRun (l1 ++ l2) acc = debounceRun l2 (debounceRun l1 acc) := by
  simp [debounceRun, List.foldl_append]

/-- The register update of one poll on a state of the canonical form
`0xE000 + b` with `b < 2^13`: the three mask bits stay put, the register
content doubles modulo `2^13` and the inverted raw level enters as the low
bit. -/
lemma DebounceSwitch_reg_aux (b ii : Nat) (hb : b < 8192) (hii : ii ≤ 1) :
    (((57344 + b) <<< 1) ||| ii ||| 57344) % 65536 = 57344 + ((2 * b) % 8192 + ii) := by
  have hdc := Nat.div_add_mod (2 * b) 8192
  have hd : (2 * b) % 8192 < 8192 := Nat.mod_lt _ (by omega)
  have hc : 2 * b / 8192 ≤ 1 := by omega
  have hdev : (2 * b) % 8192 + ii < 8192 := by omega
  have h1 : (57344 + b) <<< 1 = 114688 + 2 * b := by
    rw [Nat.shiftLeft_eq, pow_one]; ring
  have h2 := Nat.mul_add_lt_is_or (i := 1) (b := ii) (by rw [pow_one]; omega) (57344 + b)
  have h3 : 2 ^ 1 * (57344 + b) = 114688 + 2 * b := by rw [pow_one]; ring
  rw [h3] at h2
  have h13 : (2 : Nat) ^ 13 = 8192 := by norm_num
  have h4 := Nat.mul_add_lt_is_or (i := 13) (b := (2 * b) % 8192 + ii)
    (by rw [h13]; omega) (14 + 2 * b / 8192)
  rw [h13] at h4
  have h5 := Nat.mul_add_lt_is_or (i := 13) (b := (2 * b) % 8192 + ii)
    (by rw [h13]; omega) 15
  rw [h13] at h5
  norm_num at h5
  have hsplit : 114688 + 2 * b + ii = 8192 * (14 + 2 * b / 8192) + ((2 * b) % 8192 + ii) := by
    omega
  have hmask : 8192 * (14 + 2 * b / 8192) ||| 57344 = 122880 := by
    rcases (by omega : 2 * b / 8192 = 0 ∨ 2 * b / 8192 = 1) with h | h <;> rw [h] <;> decide
  calc (((57344 + b) <<< 1) ||| ii ||| 57344) % 65536
      = (((114688 + 2 * b) ||| ii) ||| 57344) % 65536 := by rw [h1]
    _ = ((114688 + 2 * b + ii) ||| 57344) % 65536 := by rw [← h2]
    _ = ((8192 * (14 + 2 * b / 8192) + ((2 * b) % 8192 + ii)) ||| 57344) % 65536 := by
        rw [hsplit]
    _ = ((8192 * (14 + 2 * b / 8192) ||| ((2 * b) % 8192 + ii)) ||| 57344) % 65536 := by
        rw [h4]
    _ = ((8192 * (14 + 2 * b / 8192) ||| 57344) ||| ((2 * b) % 8192 + ii)) % 65536 := by
        rw [Nat.or_assoc, Nat.or_comm ((2 * b) % 8192 + ii) 57344, ← Nat.or_assoc]
    _ = (122880 ||| ((2 * b) % 8192 + ii)) % 65536 := by rw [hmask]
    _ = (122880 + ((2 * b) % 8192 + ii)) % 65536 := by rw [← h5]
    _ = 57344 + ((2 * b) % 8192 + ii) := by omega

/-- Full characterisation of one poll on a canonical state: the new state is
canonical again and the poll fires exactly when the new register content is
`2^12 = 4096` (state `0xF000`). -/
lemma DebounceSwitch_reg (b raw : Nat) (hb : b < 8192) :
    DebounceSwitch (57344 + b) raw =
      (57344 + ((2 * b) % 8192 + (if raw = 0 then 1 else 0)),
        if (2 * b) % 8192 + (if raw = 0 then 1 else 0) = 4096 then 1 else 0) := by
  have hd : (2 * b) % 8192 < 8192 := Nat.mod_lt _ (by omega)
  simp only [DebounceSwitch]
  generalize hgen : (if raw = 0 then 1 else 0 : Nat) = ii
  have hii : ii ≤ 1 := by rw [← hgen]; split_ifs <;> omega
  rw [DebounceSwitch_reg_aux b ii hb hii]
  rw [if_congr (show 57344 + ((2 * b) % 8192 + ii) = 61440 ↔ (2 * b) % 8192 + ii = 4096 by
    omega) rfl rfl]

/-- First poll from the power-on state 0: the mask bits come in and the
inverted raw level becomes the low bit; no report is possible yet. -/
lemma DebounceSwitch_zero (raw : Nat) :
    DebounceSwitch 0 raw = (57344 + (if raw = 0 then 1 else 0), 0) := by
  by_cases h : raw = 0
  · subst h; decide
  · simp only [DebounceSwitch, if_neg h]
    decide

/-- A poll with the button held (raw 0) on a saturating all-ones register. -/
lemma DebounceSwitch_press_step (M : Nat) (hM : M ≤ 13) :
    DebounceSwitch (57344 + (2 ^ M - 1)) 0 =
      (57344 + (2 ^ (min (M + 1) 13) - 1), 0) := by
  interval_cases M <;> decide

/-- A poll with the button released (raw 1) while an earlier press of `M`
consecutive held samples shifts out: the poll fires exactly at the 12th
released sample. -/
lemma DebounceSwitch_release_step (M j : Nat) (hM1 : 1 ≤ M) (hM : M ≤ 13) (hj : j ≤ 13) :
    DebounceSwitch (57344 + ((2 ^ M - 1) * 2 ^ j) % 8192) 1 =
      (57344 + ((2 ^ M - 1) * 2 ^ (min (j + 1) 13)) % 8192,
        if j + 1 = 12 then 1 else 0) := by
  interval_cases M <;> interval_cases j <;> decide

/-- Idle polls (button released, empty register) keep the state fixed and
never report. -/
lemma debounceRun_idle (a : Nat) : ∀ cnt, debounceRun (List.replicate a 1) (57344, cnt) = (57344, cnt) := by
  have hstep : DebounceSwitch 57344 1 = (57344, 0) := by decide
  induction a with
  | zero => intro cnt; rfl
  | succ a ih =>
    intro cnt
    rw [List.replicate_succ, debounceRun_cons, hstep]
    simpa using ih cnt

/-- A held run of `h` polls saturates the register at `min (M + h) 13` one
bits and never reports. -/
lemma debounceRun_press (h : Nat) : ∀ M cnt, M ≤ 13 →
    debounceRun (List.replicate h 0) (57344 + (2 ^ M - 1), cnt) =
      (57344 + (2 ^ (min (M + h) 13) - 1), cnt) := by
  induction h with
  | zero =>
    intro M cnt hM
    have hmin : min (M + 0) 13 = M := by omega
    rw [hmin]
    rfl
  | succ h ih =>
    intro M cnt hM
    rw [List.replicate_succ, debounceRun_cons, DebounceSwitch_press_step M hM]
    dsimp only
    rw [ih (min (M + 1) 13) (cnt + 0) (by omega)]
    have hmin : min (min (M + 1) 13 + h) 13 = min (M + (h + 1)) 13 := by omega
    rw [hmin]
    simp

/-- A released run of `r` polls after a press of `M ≥ 1` held samples: the
register shifts out and the run reports exactly once, at its 12th poll. -/
lemma debounceRun_release (r : Nat) : ∀ j cnt M, 1 ≤ M → M ≤ 13 → j ≤ 13 →
    debounceRun (List.replicate r 1) (57344 + ((2 ^ M - 1) * 2 ^ j) % 8192, cnt) =
      (57344 + ((2 ^ M - 1) * 2 ^ (min (j + r) 13)) % 8192,
        cnt + if j < 12 ∧ 12 ≤ j + r then 1 else 0) := by
  induction r with
  | zero =>
    intro j cnt M hM1 hM hj
    have h1 : min (j + 0) 13 = j := by omega
    have h2 : (if j < 12 ∧ 12 ≤ j + 0 then 1 else 0) = 0 := by
      rw [if_neg]; omega
    rw [h1, h2]
    rfl
  | succ r ih =>
    intro j cnt M hM1 hM hj
    rw [List.replicate_succ, debounceRun_cons, DebounceSwitch_release_step M j hM1 hM hj]
    dsimp only
    rw [ih (min (j + 1) 13) _ M hM1 hM (by omega)]
    have e1 : min (min (j + 1) 13 + r) 13 = min (j + (r + 1)) 13 := by omega
    rw [e1]
    congr 1
    split_ifs <;> omega

/-- From a canonical state whose register is small enough that it cannot
reach `2^12` within the run, no poll of the run reports. -/
lemma debounceRun_short (l : List Nat) : ∀ b cnt, (b + 1) * 2 ^ l.length ≤ 4096 →
    (debounceRun l (57344 + b, cnt)).2 = cnt := by
  induction l with
  | nil => intro b cnt _; rfl
  | cons raw l ih =>
    intro b cnt hbound
    have hple : (2 : Nat) ^ (raw :: l).length = 2 * 2 ^ l.length := by
      rw [List.length_cons, pow_succ]; ring
    have hone : (1 : Nat) ≤ 2 ^ l.length := Nat.one_le_two_pow
    have hb2 : b + 1 ≤ 2048 := by
      have hmul : (b + 1) * 2 ≤ (b + 1) * (2 * 2 ^ l.length) := by
        have : (2 : Nat) ≤ 2 * 2 ^ l.length := by omega
        exact Nat.mul_le_mul_left _ this
      rw [hple] at hbound
      omega
    have hb : b < 8192 := by omega
    rw [debounceRun_cons, DebounceSwitch_reg b raw hb]
    dsimp only
    generalize hgen : (if raw = 0 then 1 else 0 : Nat) = ii
    have hii : ii ≤ 1 := by rw [← hgen]; split_ifs <;> omega
    have h2b : (2 * b) % 8192 = 2 * b := Nat.mod_eq_of_lt (by omega)
    have hne : ¬((2 * b) % 8192 + ii = 4096) := by omega
    rw [if_neg hne, h2b]
    have hfinal : (2 * b + ii + 1) * 2 ^ l.length ≤ 4096 := by
      calc (2 * b + ii + 1) * 2 ^ l.length
          ≤ (2 * (b + 1)) * 2 ^ l.length := Nat.mul_le_mul_right _ (by omega)
        _ = (b + 1) * (2 * 2 ^ l.length) := by ring
        _ = (b + 1) * 2 ^ (raw :: l).length := by rw [hple]
        _ ≤ 4096 := hbound
    rw [ih (2 * b + ii) (cnt + 0) hfinal]
    omega

/-- C5 counterexample: a clean transition from released (3 polls) to held,
sustained for 30 polls — far beyond the 12-sample run the debouncer
requires — produces no report at all, not exactly one report. -/
theorem debounce_hold_counterexample :
    (debounceRun (List.replicate 3 1 ++ List.replicate 30 0) (0, 0)).2 ≠ 1 := by decide

/-- C5 (amended): any input sequence shorter than 12 polls can never make
the debouncer report; and for a clean press — released polls, then the
button held for `h ≥ 1` polls, then released again — the debouncer reports
nothing at all while the button is held, and reports exactly once per press
once the release is sustained for at least 12 polls (the report fires at
the 12th released poll). -/
theorem debounce_triggers_once_on_release :
    (∀ raws : List Nat, raws.length < 12 → (debounceRun raws (0, 0)).2 = 0) ∧
    (∀ a h r : Nat, 1 ≤ h → 12 ≤ r →
      (debounceRun (List.replicate (a + 1) 1 ++ List.replicate h 0) (0, 0)).2 = 0 ∧
      (debounceRun (List.replicate (a + 1) 1 ++ List.replicate h 0 ++ List.replicate r 1)
        (0, 0)).2 = 1) := by
  constructor
  · intro raws hlen
    match raws with
    | [] => rfl
    | raw :: l =>
      rw [debounceRun_cons, DebounceSwitch_zero raw]
      dsimp only
      generalize hgen : (if raw = 0 then 1 else 0 : Nat) = ii
      have hii : ii ≤ 1 := by rw [← hgen]; split_ifs <;> omega
      have hlen10 : l.length ≤ 10 := by
        have := hlen
        rw [List.length_cons] at this
        omega
      have hpow : (2 : Nat) ^ l.length ≤ 1024 := by
        calc (2 : Nat) ^ l.length ≤ 2 ^ 10 := Nat.pow_le_pow_right (by omega) hlen10
          _ = 1024 := by norm_num
      have hbound : (ii + 1) * 2 ^ l.length ≤ 4096 := by
        calc (ii + 1) * 2 ^ l.length ≤ 2 * 2 ^ l.length :=
              Nat.mul_le_mul_right _ (by omega)
          _ ≤ 2 * 1024 := Nat.mul_le_mul_left _ hpow
          _ ≤ 4096 := by norm_num
      rw [debounceRun_short l ii (0 + 0) hbound]
  · intro a h r hh hr
    have hpre : debounceRun (List.replicate (a + 1) 1) (0, 0) = (57344, 0) := by
      rw [List.replicate_succ, debounceRun_cons, DebounceSwitch_zero 1]
      norm_num
      exact debounceRun_idle a 0
    have hheld : debounceRun (List.replicate (a + 1) 1 ++ List.replicate h 0) (0, 0) =
        (57344 + (2 ^ (min h 13) - 1), 0) := by
      rw [debounceRun_append, hpre]
      have hp := debounceRun_press h 0 0 (by omega)
      norm_num at hp
      exact hp
    have hM1 : 1 ≤ min h 13 := by omega
    have hM13 : min h 13 ≤ 13 := by omega
    have hpow : (2 : Nat) ^ min h 13 ≤ 8192 := by
      calc (2 : Nat) ^ min h 13 ≤ 2 ^ 13 := Nat.pow_le_pow_right (by omega) hM13
        _ = 8192 := by norm_num
    refine ⟨by rw [hheld], ?_⟩
    rw [debounceRun_append, hheld]
    have hform : (2 : Nat) ^ min h 13 - 1 = ((2 ^ min h 13 - 1) * 2 ^ 0) % 8192 := by
      rw [pow_zero, mul_one, Nat.mod_eq_of_lt (by omega)]
    rw [hform, debounceRun_release r 0 0 (min h 13) hM1 hM13 (by omega)]
    dsimp only
    rw [if_pos ⟨by omega, by omega⟩]

/-- Witness for C5 (amended): a 5-poll sequence reports nothing; one
released poll, the button held for 4 polls, then released for 12 polls
reports nothing through the held phase and exactly once overall. -/
theorem debounce_triggers_once_on_release_witness :
    (debounceRun (List.replicate 5 1) (0, 0)).2 = 0 ∧
    (debounceRun (List.replicate 1 1 ++ List.replicate 4 0) (0, 0)).2 = 0 ∧
    (debounceRun (List.replicate 1 1 ++ List.replicate 4 0 ++ List.replicate 12 1)
      (0, 0)).2 = 1 := by
  have h1 := debounce_triggers_once_on_release.1 (List.replicate 5 1) (by decide)
  have h2 := debounce_triggers_once_on_release.2 0 4 12 (by omega) (by omega)
  exact ⟨h1, h2.1, h2.2⟩
